import Mathlib

/-!
Verification development for the sql-anonymizer command-line tool.

The repository file src/cli.js bundles two statement-processing variants of the
anonymizer (an earlier chunk-driven one and a line-driven one) plus an unrelated
release script.  This file gives a shallow embedding of both variants:

* variant 1 (the line driver, first half of cli.js): its insert regex,
  value-set regex, parseValues, the per-value-set anonymization with the
  safety check, and the statement reconstruction;
* variant 2 (the chunk driver, second half of cli.js): its anchored insert
  regex, greedy value-set regex, the per-value-set anonymization without a
  safety check, and its statement splitter that cuts at every semicolon.

Strings are modelled as lists of characters; the random source
crypto.randomBytes is modelled by an explicit byte-list argument, and each call
of generateRandomQuotedString during a statement is modelled by a function from
a call counter to the produced token.
-/

namespace SqlAnon

/-- Single quote character (code point 39). -/
def qc : Char := Char.ofNat 39

/-- Newline character. -/
def nlc : Char := Char.ofNat 10

/-- Tab character. -/
def tbc : Char := Char.ofNat 9

/-- Carriage return character. -/
def crc : Char := Char.ofNat 13

/-- Vertical tab character. -/
def vtc : Char := Char.ofNat 11

/-- Form feed character. -/
def ffc : Char := Char.ofNat 12

/-- JavaScript whitespace (the ASCII part of the regex class backslash-s, which is
    also what String.prototype.trim strips on the inputs at hand). -/
def isWS (c : Char) : Bool :=
  c == ' ' || c == tbc || c == nlc || c == crc || c == vtc || c == ffc

/-- JavaScript String.prototype.trim on a character list. -/
def trimWS (cs : List Char) : List Char :=
  ((cs.dropWhile isWS).reverse.dropWhile isWS).reverse

/-- JavaScript String.prototype.trimEnd on a character list. -/
def trimEndWS (cs : List Char) : List Char :=
  (cs.reverse.dropWhile isWS).reverse

/-- Scanning loop of parseValues (src/cli.js, identical in both variants).
    State: (values pushed so far, currentVal buffer, inQuotes flag).  The JS
    quoteChar variable is omitted because it is set exactly when inQuotes is
    true and only ever holds the single-quote character, so the test
    inQuotes and quoteChar equal quote reduces to inQuotes. -/
def pvAux : List Char → List (List Char) → List Char → Bool →
    List (List Char) × List Char × Bool
  | [], vals, cur, inQ => (vals, cur, inQ)
  | c :: cs, vals, cur, inQ =>
    if c == qc && !inQ then pvAux cs vals (cur ++ [c]) true
    else if c == qc && inQ then
      match cs with
      | c2 :: cs2 =>
        if c2 == qc then pvAux cs2 vals (cur ++ [qc, qc]) true
        else pvAux (c2 :: cs2) vals (cur ++ [c]) false
      | [] => pvAux [] vals (cur ++ [c]) false
    else if c == ',' && !inQ then pvAux cs (vals ++ [trimWS cur]) [] inQ
    else pvAux cs vals (cur ++ [c]) inQ

/-- One-step unfolding of the scanner, with the one-character lookahead of the
    escaped-quote test phrased through head? and tail. -/
theorem pvAux_cons_step (c : Char) (cs : List Char) (vals : List (List Char))
    (cur : List Char) (inQ : Bool) :
    pvAux (c :: cs) vals cur inQ =
      if c == qc && !inQ then pvAux cs vals (cur ++ [c]) true
      else if c == qc && inQ then
        if cs.head? == some qc then pvAux cs.tail vals (cur ++ [qc, qc]) true
        else pvAux cs vals (cur ++ [c]) false
      else if c == ',' && !inQ then pvAux cs (vals ++ [trimWS cur]) [] inQ
      else pvAux cs vals (cur ++ [c]) inQ := by
  cases cs with
  | nil => simp [pvAux]
  | cons c2 cs2 => simp [pvAux]

/-- parseValues from src/cli.js: quote-aware comma splitting of a tuple
    interior.  The final push mirrors the JS truthiness condition
    (currentVal.trim() or values.length greater than 0 or valuesString.trim()
    empty). -/
def parseValues (cs : List Char) : List (List Char) :=
  match pvAux cs [] [] false with
  | (vals, cur, _) =>
    if trimWS cur != [] || vals.length > 0 || trimWS cs == [] then vals ++ [trimWS cur]
    else vals

/-- Safety check of the line-driver variant (cli.js: originalValue starts with a
    single quote, or originalValue.toUpperCase() equals NULL). -/
def anonymizableV1 (v : List Char) : Bool :=
  (match v with
   | c :: _ => c == qc
   | [] => false) || (v.map Char.toUpper == "NULL".data)

/-- The forEach loop over the requested column indices in the line-driver
    variant.  State: (values array, valueSetModified flag, count of random
    tokens drawn so far); gen k is the token produced by the k-th call of
    generateRandomQuotedString. -/
def anonymizeV1 (gen : Nat → List Char) :
    List Nat → Nat → List (List Char) → Bool → List (List Char) × Bool × Nat
  | [], k, vs, m => (vs, m, k)
  | i :: rest, k, vs, m =>
    if i < vs.length then
      if anonymizableV1 (vs.getD i []) then
        anonymizeV1 gen rest (k + 1) (vs.set i (gen k)) true
      else anonymizeV1 gen rest k vs m
    else anonymizeV1 gen rest k vs m

/-- The forEach loop over the requested column indices in the chunk-driver
    variant: every in-bounds index is replaced, with no safety check. -/
def anonymizeV2 (gen : Nat → List Char) :
    List Nat → Nat → List (List Char) → Bool → List (List Char) × Bool × Nat
  | [], k, vs, m => (vs, m, k)
  | i :: rest, k, vs, m =>
    if i < vs.length then
      anonymizeV2 gen rest (k + 1) (vs.set i (gen k)) true
    else anonymizeV2 gen rest k vs m

/-- maxIndex as computed in both variants: Math.max over the requested indices
    when the list is nonempty, and -1 otherwise. -/
def maxIndexI (idx : List Nat) : Int :=
  idx.foldl (fun a i => max a (i : Int)) (-1)

/-- Strip the outer parentheses of a regex value-set match. -/
def stripParens (cs : List Char) : List Char :=
  (cs.drop 1).dropLast

/-- Processing of one matched value set in the line-driver variant.  fullMatch
    is the whole regex match including its parentheses; the captured group of
    the value-set regex is the match without its outer parentheses up to
    surrounding whitespace, and the code trims it before parsing, so
    valuesString is recovered as the trimmed interior of the match.  The result
    is (emitted text, valueSetModified, token counter, bounds warning). -/
def processValueSetV1 (idx : List Nat) (gen : Nat → List Char) (k : Nat)
    (fullMatch : List Char) : List Char × Bool × Nat × Bool :=
  let valuesString := trimWS (stripParens fullMatch)
  let values := parseValues valuesString
  if (values.length : Int) ≤ maxIndexI idx then (fullMatch, false, k, true)
  else
    let r := anonymizeV1 gen idx k values false
    if r.2.1 then
      (('(' :: ' ' :: List.intercalate [',', ' '] r.1) ++ [' ', ')'], true, r.2.2, false)
    else (fullMatch, false, k, false)

/-- Processing of one matched value set in the chunk-driver variant: the
    captured group (the interior of the match) is parsed untrimmed, there is no
    safety check, and a modified set is rejoined without padding spaces. -/
def processValueSetV2 (idx : List Nat) (gen : Nat → List Char) (k : Nat)
    (fullMatch : List Char) : List Char × Bool × Nat × Bool :=
  let valuesString := stripParens fullMatch
  let values := parseValues valuesString
  if (values.length : Int) ≤ maxIndexI idx then (fullMatch, false, k, true)
  else
    let r := anonymizeV2 gen idx k values false
    if r.2.1 then
      (('(' :: List.intercalate [',', ' '] r.1) ++ [')'], true, r.2.2, false)
    else (fullMatch, false, k, false)

/-- The while loop over the value sets of one statement in the line-driver
    variant.  Returns (newValueSets, overallModified, token counter, number of
    bounds warnings). -/
def processValueSetsV1 (idx : List Nat) (gen : Nat → List Char) :
    Nat → List (List Char) → List (List Char) × Bool × Nat × Nat
  | k, [] => ([], false, k, 0)
  | k, fm :: rest =>
    let a := processValueSetV1 idx gen k fm
    let b := processValueSetsV1 idx gen a.2.2.1 rest
    (a.1 :: b.1, a.2.1 || b.2.1, b.2.2.1, (if a.2.2.2 then 1 else 0) + b.2.2.2)

/-- The while loop over the value sets of one statement in the chunk-driver
    variant. -/
def processValueSetsV2 (idx : List Nat) (gen : Nat → List Char) :
    Nat → List (List Char) → List (List Char) × Bool × Nat × Nat
  | k, [] => ([], false, k, 0)
  | k, fm :: rest =>
    let a := processValueSetV2 idx gen k fm
    let b := processValueSetsV2 idx gen a.2.2.1 rest
    (a.1 :: b.1, a.2.1 || b.2.1, b.2.2.1, (if a.2.2.2 then 1 else 0) + b.2.2.2)

/-- Hex digit characters as produced by Buffer.toString with encoding hex. -/
def hexDigits : List Char := "0123456789abcdef".data

/-- Two-character lowercase hex encoding of one byte. -/
def byteHex (b : Nat) : List Char :=
  [hexDigits.getD (b / 16) '0', hexDigits.getD (b % 16) '0']

/-- Hex string of a byte list. -/
def bytesHex (bs : List Nat) : List Char := (bs.map byteHex).flatten

/-- generateRandomQuotedString with its default length 16: the hex encoding of
    crypto.randomBytes(8) (modelled by the byte-list argument), sliced to 16
    characters and wrapped in single quotes. -/
def generateRandomQuotedString (bs : List Nat) : List Char :=
  qc :: (bytesHex bs).take 16 ++ [qc]

/-! ### Regular expressions

The tool drives its classification and tuple extraction with JavaScript
regexes.  They are embedded as abstract syntax trees over character
predicates.  Existence of a match (String.prototype.search, RegExp.test and
the index of String.prototype.match) is decided with Brzozowski derivatives;
the value-set extraction loop (RegExp.exec with the g flag) is run with a
backtracking engine that follows the JavaScript priority order: left
alternative first, greedy star takes the body first, lazy star takes the
continuation first. -/

/-- Regex syntax tree.  A star carries a laziness flag (true for the JS
    quantifier star-question-mark). -/
inductive RE where
  | emp : RE
  | eps : RE
  | cls : (Char → Bool) → RE
  | cat : RE → RE → RE
  | alt : RE → RE → RE
  | star : Bool → RE → RE

/-- Does the regex accept the empty string? -/
def RE.nullable : RE → Bool
  | .emp => false
  | .eps => true
  | .cls _ => false
  | .cat r s => r.nullable && s.nullable
  | .alt r s => r.nullable || s.nullable
  | .star _ _ => true

/-- Concatenation that collapses the empty regex and the empty string. -/
def RE.mkCat : RE → RE → RE
  | .emp, _ => .emp
  | _, .emp => .emp
  | .eps, s => s
  | r, .eps => r
  | r, s => .cat r s

/-- Alternation that collapses the empty regex. -/
def RE.mkAlt : RE → RE → RE
  | .emp, s => s
  | r, .emp => r
  | r, s => .alt r s

/-- Brzozowski derivative with respect to one character. -/
def RE.deriv : RE → Char → RE
  | .emp, _ => .emp
  | .eps, _ => .emp
  | .cls p, c => if p c then .eps else .emp
  | .cat r s, c =>
    if r.nullable then .mkAlt (.mkCat (r.deriv c) s) (s.deriv c)
    else .mkCat (r.deriv c) s
  | .alt r s, c => .mkAlt (r.deriv c) (s.deriv c)
  | .star lz r, c => .mkCat (r.deriv c) (.star lz r)

/-- Does the regex match some prefix of the input (a match starting here)? -/
def RE.matchesPref : RE → List Char → Bool
  | r, [] => r.nullable
  | r, c :: cs => r.nullable || (r.deriv c).matchesPref cs

/-- Does the regex match some substring of the input?  This is
    str.search(re) not equal to -1, and re.test(str), for an unanchored re. -/
def RE.matchesSub (r : RE) : List Char → Bool
  | [] => r.nullable
  | c :: cs => r.matchesPref (c :: cs) || r.matchesSub cs

/-- Index of the leftmost match start (str.match(re).index for an unanchored
    re without the g flag), or none when there is no match. -/
def RE.searchIdx (r : RE) : List Char → Option Nat
  | [] => if r.nullable then some 0 else none
  | c :: cs =>
    if r.matchesPref (c :: cs) then some 0
    else (r.searchIdx cs).map (· + 1)

/-- Backtracking matcher in continuation style, following the JavaScript
    priority order.  It returns the suffix left after the whole regex for the
    first successful alternative, or none.  The fuel argument only serves
    termination: every constructor layer and every star iteration consumes one
    unit, so any fuel larger than the regex size plus the regex size times the
    input length is enough, and the callers pass such a value. -/
def RE.bmatch : Nat → RE → List Char → (List Char → Option (List Char)) →
    Option (List Char)
  | 0, _, _, _ => none
  | _ + 1, .emp, _, _ => none
  | _ + 1, .eps, cs, k => k cs
  | _ + 1, .cls _, [], _ => none
  | _ + 1, .cls p, c :: cs, k => if p c then k cs else none
  | f + 1, .cat r s, cs, k => RE.bmatch f r cs (fun cs2 => RE.bmatch f s cs2 k)
  | f + 1, .alt r s, cs, k =>
    (RE.bmatch f r cs k).orElse (fun _ => RE.bmatch f s cs k)
  | f + 1, .star lz r, cs, k =>
    if lz then
      (k cs).orElse (fun _ =>
        RE.bmatch f r cs (fun cs2 => RE.bmatch f (.star lz r) cs2 k))
    else
      (RE.bmatch f r cs (fun cs2 => RE.bmatch f (.star lz r) cs2 k)).orElse
        (fun _ => k cs)

/-- Fuel that is always sufficient for the small regexes of this tool. -/
def reFuel (cs : List Char) : Nat := (cs.length + 2) * 64

/-- First match of the regex at or after the current position: returns
    (skipped text, matched text, rest), or none when no match exists.  This is
    one RegExp.exec step starting at lastIndex. -/
def RE.searchB (r : RE) : List Char → Option (List Char × List Char × List Char)
  | [] =>
    match RE.bmatch (reFuel []) r [] some with
    | some _ => some ([], [], [])
    | none => none
  | c :: cs =>
    match RE.bmatch (reFuel (c :: cs)) r (c :: cs) some with
    | some rest =>
      some ([], (c :: cs).take ((c :: cs).length - rest.length), rest)
    | none =>
      match RE.searchB r cs with
      | some (sk, m, rest) => some (c :: sk, m, rest)
      | none => none

/-- The exec loop with the g flag: all matches in order, each paired with the
    text between the previous match and it, plus the text after the last
    match.  The fuel is the input length plus one; every iteration consumes at
    least one input character because the value-set regexes cannot match the
    empty string (a zero-length match stops the loop instead, which never
    happens for them). -/
def RE.execAllAux (r : RE) : Nat → List Char →
    List (List Char × List Char) × List Char
  | 0, cs => ([], cs)
  | f + 1, cs =>
    match RE.searchB r cs with
    | none => ([], cs)
    | some (sk, m, rest) =>
      if m.isEmpty then ([], cs)
      else
        match RE.execAllAux r f rest with
        | (ps, tl) => ((sk, m) :: ps, tl)

/-- All matches of a global regex over the input. -/
def RE.execAll (r : RE) (cs : List Char) :
    List (List Char × List Char) × List Char :=
  RE.execAllAux r (cs.length + 1) cs

/-- Character class of a case-insensitive literal character (the i flag). -/
def chrCI (c : Char) : RE := .cls (fun x => x.toLower == c.toLower)

/-- Case-insensitive literal word. -/
def litCI (s : List Char) : RE := s.foldr (fun c r => .cat (chrCI c) r) .eps

/-- Character class backslash-w: ASCII letters, digits and underscore. -/
def isWordChar (c : Char) : Bool := c.isAlphanum || c == '_'

/-- Regex piece: one whitespace character. -/
def wsCls : RE := .cls isWS

/-- Regex piece: backslash-s-plus. -/
def wsPlus : RE := .cat wsCls (.star false wsCls)

/-- Regex piece: backslash-s-star. -/
def wsStar : RE := .star false wsCls

/-- Optional piece (the question-mark quantifier, greedy). -/
def reOpt (r : RE) : RE := .alt r .eps

/-- Sequential composition of a list of regex pieces. -/
def reSeq (rs : List RE) : RE := rs.foldr RE.cat RE.eps

/-- Character class of one exact character. -/
def chr1 (c : Char) : RE := .cls (fun x => x == c)

/-- Character class excluding both parentheses. -/
def notParen : RE := .cls (fun c => c != '(' && c != ')')

/-- The insert regex of the line-driver variant, built at startup from the
    escaped table name tbl:
    INSERT backslash-s-plus INTO backslash-s-plus (schema dot)? tbl
    backslash-s-star (column list)? (OVERRIDING (SYSTEM|USER) VALUE |
    DEFAULT VALUES | lazy [not semicolon or paren] , then backslash-s-plus)?
    VALUES backslash-s-star left-paren, with the i flag, used unanchored via
    statement.search. -/
def insertReV1 (tbl : List Char) : RE :=
  reSeq
    [litCI "INSERT".data, wsPlus, litCI "INTO".data, wsPlus,
     reOpt (reSeq [.cls isWordChar, .star false (.cls isWordChar), chr1 '.']),
     litCI tbl, wsStar,
     reOpt (reSeq [chr1 '(', .star false (.cls (fun c => c != ')')), chr1 ')', wsStar]),
     reOpt (.cat
       (.alt
         (reSeq [litCI "OVERRIDING".data, wsPlus,
                 .alt (litCI "SYSTEM".data) (litCI "USER".data), wsPlus,
                 litCI "VALUE".data])
         (.alt (reSeq [litCI "DEFAULT".data, wsPlus, litCI "VALUES".data])
           (.star true (.cls (fun c => c != ';' && c != '(' && c != ')')))))
       wsPlus),
     litCI "VALUES".data, wsStar, chr1 '(']

/-- The insert regex of the chunk-driver variant:
    caret backslash-s-star INSERT backslash-s-plus INTO backslash-s-plus
    (schema dot)? tbl backslash-s-plus VALUES backslash-s-star left-paren,
    with the i flag.  The caret anchors the match at the start of the string,
    so RegExp.test is matchesPref of the rest of the pattern. -/
def insertReV2 (tbl : List Char) : RE :=
  reSeq
    [wsStar, litCI "INSERT".data, wsPlus, litCI "INTO".data, wsPlus,
     reOpt (reSeq [.cls isWordChar, .star false (.cls isWordChar), chr1 '.']),
     litCI tbl, wsPlus, litCI "VALUES".data, wsStar, chr1 '(']

/-- The regex locating the VALUES keyword in the line-driver variant:
    backslash-s VALUES backslash-s-star left-paren, with the i flag; only its
    leftmost match index is used. -/
def valuesKwRe : RE :=
  reSeq [wsCls, litCI "VALUES".data, wsStar, chr1 '(']

/-- The value-set regex of the line-driver variant (flags g and s):
    left-paren backslash-s-star (lazy [not paren] (left-paren [not paren]
    right-paren lazy [not paren])lazy-star) backslash-s-star right-paren. -/
def valueSetReV1 : RE :=
  reSeq
    [chr1 '(', wsStar, .star true notParen,
     .star true (reSeq [chr1 '(', .star false notParen, chr1 ')', .star true notParen]),
     wsStar, chr1 ')']

/-- The value-set regex of the chunk-driver variant (flag g), all greedy:
    left-paren ([not paren] (left-paren [not paren] right-paren
    [not paren])star) right-paren. -/
def valueSetReV2 : RE :=
  reSeq
    [chr1 '(', .star false notParen,
     .star false (reSeq [chr1 '(', .star false notParen, chr1 ')', .star false notParen]),
     chr1 ')']

/-! ### Statement-level processing -/

/-- The reconstruction loop of the line-driver variant: the text between
    value-set matches is copied verbatim and each match is replaced by the
    corresponding entry of newValueSets (the second regex pass finds the same
    matches as the first, so the pairs line up). -/
def interleave : List (List Char × List Char) → List (List Char) → List Char
  | [], _ => []
  | _ :: _, [] => []
  | (pre, _) :: ps, n :: ns => pre ++ n ++ interleave ps ns

/-- The text written by processStatement of the line-driver variant for one
    statement.  tbl is the escaped target table name, idx the 0-based column
    indices, gen the modelled random-token source. -/
def processStatementV1 (tbl : List Char) (idx : List Nat) (gen : Nat → List Char)
    (stmt : List Char) : List Char :=
  if RE.matchesSub (insertReV1 tbl) stmt then
    match RE.searchIdx valuesKwRe stmt with
    | none => stmt
    | some vIdx =>
      let ea := RE.execAll valueSetReV1 (stmt.drop vIdx)
      let pr := processValueSetsV1 idx gen 0 (ea.1.map (fun p => p.2))
      if pr.2.1 then stmt.take vIdx ++ interleave ea.1 pr.1 ++ ea.2
      else stmt
  else stmt

/-- The overallModified flag computed by the line-driver variant for one
    statement (false when the statement is not classified as a target). -/
def overallModifiedV1 (tbl : List Char) (idx : List Nat) (gen : Nat → List Char)
    (stmt : List Char) : Bool :=
  if RE.matchesSub (insertReV1 tbl) stmt then
    match RE.searchIdx valuesKwRe stmt with
    | none => false
    | some vIdx =>
      (processValueSetsV1 idx gen 0
        ((RE.execAll valueSetReV1 (stmt.drop vIdx)).1.map (fun p => p.2))).2.1
  else false

/-- Does the second list start with the first? -/
def leadsWith : List Char → List Char → Bool
  | [], _ => true
  | _ :: _, [] => false
  | a :: as, b :: bs => a == b && leadsWith as bs

/-- Index of the first occurrence of a word in a character list, or none. -/
def indexOfSub (needle : List Char) : List Char → Option Nat
  | [] => if needle.isEmpty then some 0 else none
  | c :: cs =>
    if leadsWith needle (c :: cs) then some 0
    else (indexOfSub needle cs).map (· + 1)

/-- The text written by processStatement of the chunk-driver variant for one
    statement: non-target statements and unmodified target statements are
    written with one extra newline; a modified statement is rebuilt as
    prefix-up-to-VALUES, a space, the value sets joined with comma newline
    tab, a semicolon, and two newlines. -/
def processStatementV2 (tbl : List Char) (idx : List Nat) (gen : Nat → List Char)
    (stmt : List Char) : List Char :=
  if RE.matchesPref (insertReV2 tbl) stmt then
    match indexOfSub "VALUES".data (stmt.map Char.toUpper) with
    | none => stmt ++ [nlc]
    | some p =>
      let ea := RE.execAll valueSetReV2 (stmt.drop (p + 6))
      let pr := processValueSetsV2 idx gen 0 (ea.1.map (fun q => q.2))
      if pr.2.1 then
        stmt.take (p + 6) ++ [' '] ++ List.intercalate [',', nlc, tbc] pr.1
          ++ [';'] ++ [nlc, nlc]
      else stmt ++ [nlc]
  else stmt ++ [nlc]

/-- The modified flag computed by the chunk-driver variant for one statement. -/
def overallModifiedV2 (tbl : List Char) (idx : List Nat) (gen : Nat → List Char)
    (stmt : List Char) : Bool :=
  if RE.matchesPref (insertReV2 tbl) stmt then
    match indexOfSub "VALUES".data (stmt.map Char.toUpper) with
    | none => false
    | some p =>
      (processValueSetsV2 idx gen 0
        ((RE.execAll valueSetReV2 (stmt.drop (p + 6))).1.map (fun p => p.2))).2.1
  else false

/-! ### Statement boundary detection -/

/-- The data handler of the chunk-driver variant: repeatedly cut the buffer at
    the first semicolon and hand the cut piece (semicolon included) to
    processStatement; returns the delivered statements and the leftover
    buffer.  No quote state is consulted. -/
def splitSemisAux (cur : List Char) : List Char → List (List Char) × List Char
  | [] => ([], cur)
  | c :: cs =>
    if c == ';' then
      ((cur ++ [';']) :: (splitSemisAux [] cs).1, (splitSemisAux [] cs).2)
    else splitSemisAux (cur ++ [c]) cs

/-- Statements delivered by the chunk driver for a buffer, with the leftover. -/
def splitSemisV2 (cs : List Char) : List (List Char) × List Char :=
  splitSemisAux [] cs

/-- JavaScript String.prototype.split at the semicolon character. -/
def jsSplitSemi : List Char → List (List Char)
  | [] => [[]]
  | c :: cs =>
    let ps := jsSplitSemi cs
    if c == ';' then [] :: ps
    else (c :: ps.headD []) :: ps.tail

/-- The line handler of the line-driver variant: the line (with a normalized
    newline) is appended to the buffer; if the trimmed line ends with a
    semicolon the buffer is flushed, and when the line holds two or more
    semicolons the buffer is split at every semicolon and each nonblank part
    (semicolon restored) is delivered separately.  Returns the delivered
    statements and the new buffer.  No quote state is consulted. -/
def onLineV1 (buffer line : List Char) : List (List Char) × List Char :=
  let buf := buffer ++ line ++ [nlc]
  if (trimEndWS line).getLast? == some ';' then
    if 2 ≤ line.count ';' then
      (((jsSplitSemi buf).dropLast.map (fun p => p ++ [';'])).filter
        (fun p => trimWS p != []), [])
    else ([buf], [])
  else ([], buf)

/-! ### Helper lemmas -/

/-- Iterated Brzozowski derivative. -/
def derivs (r : RE) : List Char → RE
  | [] => r
  | c :: cs => derivs (r.deriv c) cs

/-- Was some state nullable while consuming the given characters (equivalently,
    does a match starting here end inside them)? -/
def nullAlong (r : RE) : List Char → Bool
  | [] => false
  | c :: cs => r.nullable || nullAlong (r.deriv c) cs

theorem matchesPref_append (r : RE) (xs ys : List Char) :
    RE.matchesPref r (xs ++ ys)
      = (nullAlong r xs || RE.matchesPref (derivs r xs) ys) := by
  induction xs generalizing r with
  | nil => simp [nullAlong, derivs]
  | cons x xs ih => simp [RE.matchesPref, nullAlong, derivs, ih, Bool.or_assoc]

theorem emp_matchesPref (s : List Char) : RE.matchesPref .emp s = false := by
  induction s with
  | nil => rfl
  | cons c cs ih => simpa [RE.matchesPref, RE.deriv, RE.nullable] using ih

theorem dropWhile_cons_false {p : Char → Bool} {c : Char} {l : List Char}
    (h : p c = false) : List.dropWhile p (c :: l) = c :: l := by
  simp [List.dropWhile_cons, h]

theorem trimWS_quote_ends (xs : List Char) :
    trimWS (qc :: xs ++ [qc]) = qc :: xs ++ [qc] := by
  have h : isWS qc = false := by decide
  simp [trimWS, List.dropWhile_cons, h, List.reverse_append]

/-- Scanning a quote-free segment while inside a quoted string copies it into
    the current field buffer. -/
theorem pvAux_quoted (seg : List Char) (h : ∀ c ∈ seg, (c == qc) = false) :
    ∀ (rest : List Char) vals cur,
      pvAux (seg ++ rest) vals cur true = pvAux rest vals (cur ++ seg) true := by
  induction seg with
  | nil => simp
  | cons c cs ih =>
    intro rest vals cur
    have hc : (c == qc) = false := h c (by simp)
    have hcs : ∀ x ∈ cs, (x == qc) = false := fun x hx => h x (by simp [hx])
    show pvAux (c :: (cs ++ rest)) vals cur true = _
    rw [pvAux_cons_step]
    simp [hc, ih hcs rest vals (cur ++ [c])]

/-- Scanning a quote-free comma-free segment while outside quotes copies it
    into the current field buffer. -/
theorem pvAux_plain (seg : List Char)
    (h : ∀ c ∈ seg, (c == qc) = false ∧ (c == ',') = false) :
    ∀ (rest : List Char) vals cur,
      pvAux (seg ++ rest) vals cur false = pvAux rest vals (cur ++ seg) false := by
  induction seg with
  | nil => simp
  | cons c cs ih =>
    intro rest vals cur
    have hc : (c == qc) = false := (h c (by simp)).1
    have hc2 : (c == ',') = false := (h c (by simp)).2
    have hcs : ∀ x ∈ cs, (x == qc) = false ∧ (x == ',') = false :=
      fun x hx => h x (by simp [hx])
    show pvAux (c :: (cs ++ rest)) vals cur false = _
    rw [pvAux_cons_step]
    simp [hc, hc2, ih hcs rest vals (cur ++ [c])]

/-- One scanning step: a quote met inside a quoted string and not followed by
    another quote closes the string. -/
theorem pvAux_close (c : Char) (cs : List Char) (vals : List (List Char))
    (cur : List Char) (h : (c == qc) = true)
    (hh : (cs.head? == some qc) = false) :
    pvAux (c :: cs) vals cur true = pvAux cs vals (cur ++ [c]) false := by
  rw [pvAux_cons_step]
  simp [h, hh]

/-- Scanning xs followed by ys equals scanning ys from the state reached after
    xs, provided ys does not begin with a quote (a quote just after a closing
    quote would instead be read back as an escaped pair). -/
theorem pvAux_append (ys : List Char) (hy : ∀ c, ys.head? = some c → (c == qc) = false) :
    ∀ (xs : List Char) vals cur inQ,
      pvAux (xs ++ ys) vals cur inQ
        = pvAux ys (pvAux xs vals cur inQ).1 (pvAux xs vals cur inQ).2.1
            (pvAux xs vals cur inQ).2.2 := by
  intro xs vals cur inQ
  induction xs, vals, cur, inQ using pvAux.induct with
  | case1 vals cur inQ => simp [pvAux]
  | case2 c cs vals cur inQ hc ih =>
    show pvAux (c :: (cs ++ ys)) vals cur _ = _
    rw [pvAux_cons_step]
    conv_rhs => rw [pvAux_cons_step]
    simp [hc, ih]
  | case3 c vals cur inQ hc1 hc2 c2 cs2 hq ih =>
    show pvAux (c :: ((c2 :: cs2) ++ ys)) vals cur _ = _
    rw [pvAux_cons_step]
    conv_rhs => rw [pvAux_cons_step]
    simp [hc1, hc2, hq, ih]
  | case4 c vals cur inQ hc1 hc2 c2 cs2 hq ih =>
    show pvAux (c :: ((c2 :: cs2) ++ ys)) vals cur _ = _
    rw [pvAux_cons_step]
    conv_rhs => rw [pvAux_cons_step]
    simp [hc1, hc2, hq]
    simpa using ih
  | case5 c vals cur inQ hc1 hc2 ih =>
    show pvAux (c :: ys) vals cur _ = _
    have hys : (ys.head? == some qc) = false := by
      cases hys2 : ys.head? with
      | none => rfl
      | some y => simpa using hy y hys2
    rw [pvAux_cons_step]
    conv_rhs => rw [pvAux_cons_step]
    simp [hc1, hc2, hys, pvAux]
  | case6 c cs vals cur inQ hc1 hc2 hc3 ih =>
    show pvAux (c :: (cs ++ ys)) vals cur _ = _
    rw [pvAux_cons_step]
    conv_rhs => rw [pvAux_cons_step]
    simp [hc1, hc2, hc3, ih]
  | case7 c cs vals cur inQ hc1 hc2 hc3 ih =>
    show pvAux (c :: (cs ++ ys)) vals cur _ = _
    rw [pvAux_cons_step]
    conv_rhs => rw [pvAux_cons_step]
    simp [hc1, hc2, hc3, ih]

/-- Tokenizing a single quoted literal with a quote-free interior yields that
    literal as one field. -/
theorem parseValues_quoted (mid : List Char) (h : ∀ c ∈ mid, (c == qc) = false) :
    parseValues (qc :: (mid ++ [qc])) = [qc :: (mid ++ [qc])] := by
  have e1 : pvAux (qc :: (mid ++ [qc])) [] [] false = pvAux (mid ++ [qc]) [] [qc] true := by
    rw [pvAux_cons_step]
    simp
  have e2 : pvAux (mid ++ [qc]) [] [qc] true = pvAux [qc] [] ([qc] ++ mid) true :=
    pvAux_quoted mid h [qc] [] [qc]
  have e3 : pvAux [qc] [] ([qc] ++ mid) true = ([], qc :: (mid ++ [qc]), false) := by
    rw [pvAux_cons_step]
    simp [pvAux]
  have ht : trimWS (qc :: (mid ++ [qc])) = qc :: (mid ++ [qc]) := by
    have := trimWS_quote_ends mid
    simpa using this
  unfold parseValues
  rw [e1, e2, e3]
  simp [ht]

/-- Tokenizing a quoted literal holding one escaped quote pair yields that
    literal as one field, doubled quote preserved. -/
theorem parseValues_escaped (a b : List Char) (ha : ∀ c ∈ a, (c == qc) = false)
    (hb : ∀ c ∈ b, (c == qc) = false) :
    parseValues (qc :: (a ++ (qc :: qc :: (b ++ [qc]))))
      = [qc :: (a ++ (qc :: qc :: (b ++ [qc])))] := by
  have e1 : pvAux (qc :: (a ++ (qc :: qc :: (b ++ [qc])))) [] [] false
      = pvAux (a ++ (qc :: qc :: (b ++ [qc]))) [] [qc] true := by
    rw [pvAux_cons_step]
    simp
  have e2 : pvAux (a ++ (qc :: qc :: (b ++ [qc]))) [] [qc] true
      = pvAux (qc :: qc :: (b ++ [qc])) [] ([qc] ++ a) true :=
    pvAux_quoted a ha _ [] [qc]
  have e3 : pvAux (qc :: qc :: (b ++ [qc])) [] ([qc] ++ a) true
      = pvAux (b ++ [qc]) [] (([qc] ++ a) ++ [qc, qc]) true := by
    rw [pvAux_cons_step]
    simp
  have e4 : pvAux (b ++ [qc]) [] (([qc] ++ a) ++ [qc, qc]) true
      = pvAux [qc] [] ((([qc] ++ a) ++ [qc, qc]) ++ b) true :=
    pvAux_quoted b hb _ [] _
  have e5 : pvAux [qc] [] ((([qc] ++ a) ++ [qc, qc]) ++ b) true
      = ([], ((([qc] ++ a) ++ [qc, qc]) ++ b) ++ [qc], false) := by
    rw [pvAux_cons_step]
    simp [pvAux]
  have hshape : ((([qc] ++ a) ++ [qc, qc]) ++ b) ++ [qc]
      = qc :: (a ++ (qc :: qc :: (b ++ [qc]))) := by
    simp
  have ht : trimWS (qc :: (a ++ (qc :: qc :: (b ++ [qc]))))
      = qc :: (a ++ (qc :: qc :: (b ++ [qc]))) := by
    have := trimWS_quote_ends (a ++ (qc :: qc :: b))
    simpa [List.append_assoc] using this
  unfold parseValues
  rw [e1, e2, e3, e4, e5]
  simp only [hshape]
  simp [ht]

theorem getD_set_ne (l : List (List Char)) (i j : Nat) (h : ¬ i = j)
    (a : List Char) : (l.set i a).getD j [] = l.getD j [] := by
  simp [List.getD_eq_getElem?_getD, List.getElem?_set_ne h]

theorem getD_set_self (l : List (List Char)) (i : Nat) (h : i < l.length)
    (a : List Char) : (l.set i a).getD i [] = a := by
  simp [List.getD_eq_getElem?_getD, List.getElem?_set, h]

theorem anonymizeV1_cons_pos (gen : Nat → List Char) (j : Nat) (rest : List Nat)
    (k : Nat) (vs : List (List Char)) (m : Bool) (h1 : j < vs.length)
    (h2 : anonymizableV1 (vs.getD j []) = true) :
    anonymizeV1 gen (j :: rest) k vs m
      = anonymizeV1 gen rest (k + 1) (vs.set j (gen k)) true := by
  have h2g : anonymizableV1 vs[j] = true := by
    rw [List.getD_eq_getElem vs [] h1] at h2
    exact h2
  simp [anonymizeV1, h1, h2g]

theorem anonymizeV1_cons_neg (gen : Nat → List Char) (j : Nat) (rest : List Nat)
    (k : Nat) (vs : List (List Char)) (m : Bool) (h1 : j < vs.length)
    (h2 : anonymizableV1 (vs.getD j []) = false) :
    anonymizeV1 gen (j :: rest) k vs m = anonymizeV1 gen rest k vs m := by
  have h2g : anonymizableV1 vs[j] = false := by
    rw [List.getD_eq_getElem vs [] h1] at h2
    exact h2
  simp [anonymizeV1, h1, h2g]

theorem anonymizeV1_cons_oob (gen : Nat → List Char) (j : Nat) (rest : List Nat)
    (k : Nat) (vs : List (List Char)) (m : Bool) (h1 : ¬ j < vs.length) :
    anonymizeV1 gen (j :: rest) k vs m = anonymizeV1 gen rest k vs m := by
  simp [anonymizeV1, h1]

theorem anonymizeV2_cons_pos (gen : Nat → List Char) (j : Nat) (rest : List Nat)
    (k : Nat) (vs : List (List Char)) (m : Bool) (h1 : j < vs.length) :
    anonymizeV2 gen (j :: rest) k vs m
      = anonymizeV2 gen rest (k + 1) (vs.set j (gen k)) true := by
  simp [anonymizeV2, h1]

theorem anonymizeV2_cons_oob (gen : Nat → List Char) (j : Nat) (rest : List Nat)
    (k : Nat) (vs : List (List Char)) (m : Bool) (h1 : ¬ j < vs.length) :
    anonymizeV2 gen (j :: rest) k vs m = anonymizeV2 gen rest k vs m := by
  simp [anonymizeV2, h1]

theorem anonymizeV1_length (gen : Nat → List Char) :
    ∀ (idx : List Nat) (k : Nat) (vs : List (List Char)) (m : Bool),
      (anonymizeV1 gen idx k vs m).1.length = vs.length := by
  intro idx
  induction idx with
  | nil => intro k vs m; rfl
  | cons j rest ih =>
    intro k vs m
    by_cases h1 : j < vs.length
    · by_cases h2 : anonymizableV1 (vs.getD j []) = true
      · rw [anonymizeV1_cons_pos gen j rest k vs m h1 h2, ih]
        simp
      · rw [anonymizeV1_cons_neg gen j rest k vs m h1 (by simpa using h2), ih]
    · rw [anonymizeV1_cons_oob gen j rest k vs m h1, ih]

theorem anonymizeV2_length (gen : Nat → List Char) :
    ∀ (idx : List Nat) (k : Nat) (vs : List (List Char)) (m : Bool),
      (anonymizeV2 gen idx k vs m).1.length = vs.length := by
  intro idx
  induction idx with
  | nil => intro k vs m; rfl
  | cons j rest ih =>
    intro k vs m
    by_cases h1 : j < vs.length
    · rw [anonymizeV2_cons_pos gen j rest k vs m h1, ih]
      simp
    · rw [anonymizeV2_cons_oob gen j rest k vs m h1, ih]

/-- A field whose text fails the safety check is never touched by the
    line-driver anonymization loop. -/
theorem anonymizeV1_keep (gen : Nat → List Char) :
    ∀ (idx : List Nat) (k : Nat) (vs : List (List Char)) (m : Bool) (i : Nat),
      anonymizableV1 (vs.getD i []) = false →
      (anonymizeV1 gen idx k vs m).1.getD i [] = vs.getD i [] := by
  intro idx
  induction idx with
  | nil => intro k vs m i _; rfl
  | cons j rest ih =>
    intro k vs m i h
    by_cases h1 : j < vs.length
    · by_cases h2 : anonymizableV1 (vs.getD j []) = true
      · have hne : ¬ j = i := by
          intro he
          rw [he, h] at h2
          exact Bool.false_ne_true h2
        have h3 : anonymizableV1 ((vs.set j (gen k)).getD i []) = false := by
          rw [getD_set_ne vs j i hne (gen k)]
          exact h
        rw [anonymizeV1_cons_pos gen j rest k vs m h1 h2, ih _ _ _ _ h3,
          getD_set_ne vs j i hne (gen k)]
      · rw [anonymizeV1_cons_neg gen j rest k vs m h1 (by simpa using h2),
          ih _ _ _ _ h]
    · rw [anonymizeV1_cons_oob gen j rest k vs m h1, ih _ _ _ _ h]

/-- Every position of the line-driver result holds either its original value or
    some freshly generated token. -/
theorem anonymizeV1_form (gen : Nat → List Char) :
    ∀ (idx : List Nat) (k : Nat) (vs : List (List Char)) (m : Bool) (i : Nat),
      (anonymizeV1 gen idx k vs m).1.getD i [] = vs.getD i []
      ∨ ∃ k2, (anonymizeV1 gen idx k vs m).1.getD i [] = gen k2 := by
  intro idx
  induction idx with
  | nil => intro k vs m i; exact Or.inl rfl
  | cons j rest ih =>
    intro k vs m i
    by_cases h1 : j < vs.length
    · by_cases h2 : anonymizableV1 (vs.getD j []) = true
      · rw [anonymizeV1_cons_pos gen j rest k vs m h1 h2]
        rcases ih (k + 1) (vs.set j (gen k)) true i with hI | ⟨k2, hk2⟩
        · by_cases hji : j = i
          · subst hji
            rw [getD_set_self vs j h1 (gen k)] at hI
            exact Or.inr ⟨k, hI⟩
          · rw [getD_set_ne vs j i hji (gen k)] at hI
            exact Or.inl hI
        · exact Or.inr ⟨k2, hk2⟩
      · rw [anonymizeV1_cons_neg gen j rest k vs m h1 (by simpa using h2)]
        exact ih k vs m i
    · rw [anonymizeV1_cons_oob gen j rest k vs m h1]
      exact ih k vs m i

/-- Every position of the chunk-driver result holds either its original value
    or some freshly generated token. -/
theorem anonymizeV2_form (gen : Nat → List Char) :
    ∀ (idx : List Nat) (k : Nat) (vs : List (List Char)) (m : Bool) (i : Nat),
      (anonymizeV2 gen idx k vs m).1.getD i [] = vs.getD i []
      ∨ ∃ k2, (anonymizeV2 gen idx k vs m).1.getD i [] = gen k2 := by
  intro idx
  induction idx with
  | nil => intro k vs m i; exact Or.inl rfl
  | cons j rest ih =>
    intro k vs m i
    by_cases h1 : j < vs.length
    · rw [anonymizeV2_cons_pos gen j rest k vs m h1]
      rcases ih (k + 1) (vs.set j (gen k)) true i with hI | ⟨k2, hk2⟩
      · by_cases hji : j = i
        · subst hji
          rw [getD_set_self vs j h1 (gen k)] at hI
          exact Or.inr ⟨k, hI⟩
        · rw [getD_set_ne vs j i hji (gen k)] at hI
          exact Or.inl hI
      · exact Or.inr ⟨k2, hk2⟩
    · rw [anonymizeV2_cons_oob gen j rest k vs m h1]
      exact ih k vs m i

/-- A targeted in-bounds field that passes the safety check ends up holding a
    generated token in the line-driver variant. -/
theorem anonymizeV1_repl (gen : Nat → List Char) :
    ∀ (idx : List Nat) (k : Nat) (vs : List (List Char)) (m : Bool) (i : Nat),
      i ∈ idx → i < vs.length → anonymizableV1 (vs.getD i []) = true →
      ∃ k2, (anonymizeV1 gen idx k vs m).1.getD i [] = gen k2 := by
  intro idx
  induction idx with
  | nil => intro k vs m i hmem; exact absurd hmem (List.not_mem_nil i)
  | cons j rest ih =>
    intro k vs m i hmem hlen han
    by_cases h1 : j < vs.length
    · by_cases h2 : anonymizableV1 (vs.getD j []) = true
      · rw [anonymizeV1_cons_pos gen j rest k vs m h1 h2]
        by_cases hji : j = i
        · subst hji
          rcases anonymizeV1_form gen rest (k + 1) (vs.set j (gen k)) true j
            with hI | ⟨k2, hk2⟩
          · rw [getD_set_self vs j h1 (gen k)] at hI
            exact ⟨k, hI⟩
          · exact ⟨k2, hk2⟩
        · have hmem2 : i ∈ rest := by
            rcases List.mem_cons.mp hmem with he | hr
            · exact absurd he.symm hji
            · exact hr
          refine ih (k + 1) (vs.set j (gen k)) true i hmem2 ?_ ?_
          · simpa using hlen
          · rw [getD_set_ne vs j i hji (gen k)]
            exact han
      · rw [anonymizeV1_cons_neg gen j rest k vs m h1 (by simpa using h2)]
        have hmem2 : i ∈ rest := by
          rcases List.mem_cons.mp hmem with he | hr
          · subst he
            exact absurd han h2
          · exact hr
        exact ih k vs m i hmem2 hlen han
    · rw [anonymizeV1_cons_oob gen j rest k vs m h1]
      have hmem2 : i ∈ rest := by
        rcases List.mem_cons.mp hmem with he | hr
        · subst he
          exact absurd hlen h1
        · exact hr
      exact ih k vs m i hmem2 hlen han

/-- A targeted in-bounds field always ends up holding a generated token in the
    chunk-driver variant, whatever its text. -/
theorem anonymizeV2_repl (gen : Nat → List Char) :
    ∀ (idx : List Nat) (k : Nat) (vs : List (List Char)) (m : Bool) (i : Nat),
      i ∈ idx → i < vs.length →
      ∃ k2, (anonymizeV2 gen idx k vs m).1.getD i [] = gen k2 := by
  intro idx
  induction idx with
  | nil => intro k vs m i hmem; exact absurd hmem (List.not_mem_nil i)
  | cons j rest ih =>
    intro k vs m i hmem hlen
    by_cases h1 : j < vs.length
    · rw [anonymizeV2_cons_pos gen j rest k vs m h1]
      by_cases hji : j = i
      · subst hji
        rcases anonymizeV2_form gen rest (k + 1) (vs.set j (gen k)) true j
          with hI | ⟨k2, hk2⟩
        · rw [getD_set_self vs j h1 (gen k)] at hI
          exact ⟨k, hI⟩
        · exact ⟨k2, hk2⟩
      · have hmem2 : i ∈ rest := by
          rcases List.mem_cons.mp hmem with he | hr
          · exact absurd he.symm hji
          · exact hr
        exact ih (k + 1) (vs.set j (gen k)) true i hmem2 (by simpa using hlen)
    · rw [anonymizeV2_cons_oob gen j rest k vs m h1]
      have hmem2 : i ∈ rest := by
        rcases List.mem_cons.mp hmem with he | hr
        · subst he
          exact absurd hlen h1
        · exact hr
      exact ih k vs m i hmem2 hlen

theorem bytesHex_length (bs : List Nat) : (bytesHex bs).length = 2 * bs.length := by
  induction bs with
  | nil => rfl
  | cons b rest ih =>
    simp [bytesHex, byteHex] at ih ⊢
    omega

theorem hexDigits_getD_mem (n : Nat) (h : n < 16) : hexDigits.getD n '0' ∈ hexDigits := by
  have hl : n < hexDigits.length := by
    have : hexDigits.length = 16 := by decide
    omega
  rw [List.getD_eq_getElem hexDigits '0' hl]
  exact List.getElem_mem hl

theorem mem_bytesHex_hex (bs : List Nat) (h : ∀ b ∈ bs, b < 256) :
    ∀ c ∈ bytesHex bs, c ∈ hexDigits := by
  induction bs with
  | nil => simp [bytesHex]
  | cons b rest ih =>
    intro c hc
    have hb : b < 256 := h b (by simp)
    have hrest : ∀ x ∈ rest, x < 256 := fun x hx => h x (by simp [hx])
    have hsplit : c ∈ byteHex b ∨ c ∈ bytesHex rest := by
      simpa [bytesHex] using hc
    rcases hsplit with hc1 | hc2
    · have hdiv : b / 16 < 16 := by omega
      have hmod : b % 16 < 16 := Nat.mod_lt _ (by omega)
      rcases (by simpa [byteHex] using hc1 : c = hexDigits.getD (b / 16) '0'
          ∨ c = hexDigits.getD (b % 16) '0') with he | he
      · rw [he]; exact hexDigits_getD_mem _ hdiv
      · rw [he]; exact hexDigits_getD_mem _ hmod
    · exact ih hrest c hc2

theorem hexDigits_plain (c : Char) (h : c ∈ hexDigits) :
    c ≠ qc ∧ c ≠ ',' ∧ c ≠ '(' ∧ c ≠ ')' ∧ c ≠ ';' := by
  fin_cases h <;> exact ⟨by decide, by decide, by decide, by decide, by decide⟩

/-! ### Claim theorems -/

/-- Constant token source used in concrete instances: every call of the random
    generator is modelled as producing the quoted string with interior x. -/
def exGen : Nat → List Char := fun _ => [qc, 'x', qc]

/-- C10: with the default length, every replacement token is 18 characters —
    an opening single quote, 16 lowercase hex characters and a closing quote —
    so it contains no embedded quote, comma, parenthesis or semicolon, and the
    tokenizer reads it back as a single field. -/
theorem c10_token_shape (bs : List Nat) (h1 : bs.length = 8)
    (h2 : ∀ b ∈ bs, b < 256) :
    (generateRandomQuotedString bs).length = 18
    ∧ generateRandomQuotedString bs = qc :: (((bytesHex bs).take 16) ++ [qc])
    ∧ ((bytesHex bs).take 16).length = 16
    ∧ (∀ c ∈ (bytesHex bs).take 16, c ∈ hexDigits)
    ∧ (∀ c ∈ (bytesHex bs).take 16,
        c ≠ qc ∧ c ≠ ',' ∧ c ≠ '(' ∧ c ≠ ')' ∧ c ≠ ';')
    ∧ parseValues (generateRandomQuotedString bs) = [generateRandomQuotedString bs] := by
  have hlen : (bytesHex bs).length = 16 := by rw [bytesHex_length, h1]
  have htake : ((bytesHex bs).take 16).length = 16 := by
    simp [List.length_take, hlen]
  have hmemhex : ∀ c ∈ (bytesHex bs).take 16, c ∈ hexDigits := fun c hc =>
    mem_bytesHex_hex bs h2 c (List.take_subset 16 (bytesHex bs) hc)
  have hplain : ∀ c ∈ (bytesHex bs).take 16,
      c ≠ qc ∧ c ≠ ',' ∧ c ≠ '(' ∧ c ≠ ')' ∧ c ≠ ';' := fun c hc =>
    hexDigits_plain c (hmemhex c hc)
  have hshape : generateRandomQuotedString bs
      = qc :: (((bytesHex bs).take 16) ++ [qc]) := by
    simp [generateRandomQuotedString]
  have hq : ∀ c ∈ (bytesHex bs).take 16, (c == qc) = false := by
    intro c hc
    have := (hplain c hc).1
    simp [this]
  refine ⟨?_, hshape, htake, hmemhex, hplain, ?_⟩
  · rw [hshape]
    simp [htake]
  · rw [hshape]
    exact parseValues_quoted _ hq

/-- C10 witness at a concrete byte list. -/
theorem c10_token_shape_witness :
    (generateRandomQuotedString [0, 0, 0, 0, 0, 0, 0, 0]).length = 18 :=
  (c10_token_shape [0, 0, 0, 0, 0, 0, 0, 0] (by decide) (by decide)).1

/-- C8 counterexample: the empty tuple interior tokenizes to one empty field,
    not to zero fields as claimed. -/
theorem c8_counterexample :
    parseValues [] = [[]] ∧ (parseValues []).length ≠ 0 := by
  constructor
  · rfl
  · decide

/-- Whitespace characters are neither quotes nor commas. -/
theorem ws_not_quote_comma (c : Char) (h : isWS c = true) :
    (c == qc) = false ∧ (c == ',') = false := by
  simp [isWS] at h
  rcases h with ((((h | h) | h) | h) | h) | h <;> subst h <;>
    exact ⟨by decide, by decide⟩

/-- C8 amended: an empty or all-whitespace interior yields exactly one empty
    field (the final push fires even then); an interior ending in a top-level
    trailing comma yields a final field that is the empty string. -/
theorem c8_amended (ws cs : List Char) (vals : List (List Char)) (cur : List Char)
    (hws : ∀ c ∈ ws, isWS c = true)
    (hscan : pvAux cs [] [] false = (vals, cur, false)) :
    parseValues ws = [[]]
    ∧ parseValues (cs ++ [',']) = vals ++ [trimWS cur, []] := by
  constructor
  · have hplain : ∀ c ∈ ws, (c == qc) = false ∧ (c == ',') = false :=
      fun c hc => ws_not_quote_comma c (hws c hc)
    have hscan2 : pvAux ws [] [] false = ([], ws, false) := by
      have := pvAux_plain ws hplain [] [] []
      simpa using this
    have htrim : trimWS ws = [] := by
      have hd : List.dropWhile isWS ws = [] := by
        rw [List.dropWhile_eq_nil_iff]
        exact fun x hx => hws x hx
      simp [trimWS, hd]
    unfold parseValues
    rw [hscan2]
    simp [htrim]
  · have hyc : ∀ c : Char, ([','] : List Char).head? = some c → (c == qc) = false := by
      intro c h
      have hc : c = ',' := by simpa using h.symm
      rw [hc]
      decide
    have happ := pvAux_append [','] hyc cs [] [] false
    rw [hscan] at happ
    have hcomma : pvAux [','] vals cur false = (vals ++ [trimWS cur], [], false) := by
      rw [pvAux_cons_step]
      simp [pvAux, show ((',' == qc) = false) from by decide]
    unfold parseValues
    rw [happ]
    simp only []
    rw [hcomma]
    simp [trimWS]

/-- C8 witness: a quoted field followed by a trailing comma. -/
theorem c8_amended_witness :
    parseValues [' '] = [[]]
    ∧ parseValues ([qc, 'a', qc] ++ [',']) = [] ++ [trimWS [qc, 'a', qc], []] :=
  c8_amended [' '] [qc, 'a', qc] [] [qc, 'a', qc] (by decide) (by decide)

/-- A statement text holding a semicolon inside a quoted string. -/
def c7Stmt : List Char :=
  "INSERT INTO t VALUES (".data ++ [qc] ++ "a;b".data ++ [qc] ++ ");".data

/-- C7 counterexample: both stream drivers cut the statement at the quoted
    semicolon, so it is delivered as two pieces, neither of which is the
    complete statement. -/
theorem c7_counterexample :
    (onLineV1 [] c7Stmt).1
      = ["INSERT INTO t VALUES (".data ++ [qc] ++ "a;".data,
         "b".data ++ [qc] ++ ");".data]
    ∧ (splitSemisV2 c7Stmt).1
      = ["INSERT INTO t VALUES (".data ++ [qc] ++ "a;".data,
         "b".data ++ [qc] ++ ");".data]
    ∧ ("INSERT INTO t VALUES (".data ++ [qc] ++ "a;".data) ≠ c7Stmt ++ [nlc]
    ∧ ("b".data ++ [qc] ++ ");".data) ≠ c7Stmt ++ [nlc]
    ∧ ("INSERT INTO t VALUES (".data ++ [qc] ++ "a;".data) ≠ c7Stmt
    ∧ ("b".data ++ [qc] ++ ");".data) ≠ c7Stmt := by
  refine ⟨by decide, by decide, by decide, by decide, by decide, by decide⟩

theorem splitSemisAux_append (pre : List Char) (h : ¬ ';' ∈ pre) :
    ∀ (cur post : List Char),
      splitSemisAux cur (pre ++ ';' :: post)
        = (((cur ++ pre) ++ [';']) :: (splitSemisAux [] post).1,
           (splitSemisAux [] post).2) := by
  induction pre with
  | nil => intro cur post; simp [splitSemisAux]
  | cons p ps ih =>
    intro cur post
    have hp : (p == ';') = false := by
      have : ¬ p = ';' := fun he => h (by simp [he])
      simp [this]
    have hps : ¬ ';' ∈ ps := fun hm => h (by simp [hm])
    show splitSemisAux cur (p :: (ps ++ ';' :: post)) = _
    rw [splitSemisAux]
    simp only [hp, Bool.false_eq_true, if_false]
    rw [ih hps (cur ++ [p]) post]
    simp

/-- C7 amended: statement boundaries are plain semicolons with no quote state —
    the chunk driver cuts the buffer at the first semicolon wherever it is,
    quoted or not. -/
theorem c7_amended (pre post : List Char) (h : ¬ ';' ∈ pre) :
    splitSemisV2 (pre ++ ';' :: post)
      = ((pre ++ [';']) :: (splitSemisV2 post).1, (splitSemisV2 post).2) := by
  unfold splitSemisV2
  rw [splitSemisAux_append pre h [] post]
  simp

/-- C7 witness. -/
theorem c7_amended_witness :
    splitSemisV2 ("SELECT 1".data ++ ';' :: " DROP TABLE x;".data)
      = (("SELECT 1".data ++ [';']) :: (splitSemisV2 " DROP TABLE x;".data).1,
         (splitSemisV2 " DROP TABLE x;".data).2) :=
  c7_amended "SELECT 1".data " DROP TABLE x;".data (by decide)

/-- A statement on table users, a proper extension of the target name user. -/
def c4Stmt : List Char :=
  "INSERT INTO users VALUES (1, ".data ++ [qc] ++ "a".data ++ [qc] ++ ");".data

/-- C4 counterexample: with target table user, the line-driver classifier
    matches the statement on table users (its optional-clause branch absorbs
    the trailing s), and the statement is modified rather than passed through. -/
theorem c4_counterexample :
    RE.matchesSub (insertReV1 "user".data) c4Stmt = true
    ∧ processStatementV1 "user".data [1] exGen c4Stmt
        = "INSERT INTO users VALUES ( 1, ".data ++ [qc, 'x', qc] ++ " );".data
    ∧ processStatementV1 "user".data [1] exGen c4Stmt ≠ c4Stmt := by
  refine ⟨by decide, by decide, by decide⟩

/-- C4 amended: the chunk-driver classifier is exact-token — with target user
    a statement on table users is rejected whatever follows — while the
    line-driver classifier does match such a statement. -/
theorem c4_amended :
    (∀ s : List Char,
      RE.matchesPref (insertReV2 "user".data) ("INSERT INTO users ".data ++ s) = false)
    ∧ RE.matchesSub (insertReV1 "user".data) c4Stmt = true := by
  constructor
  · intro s
    rw [matchesPref_append]
    have h1 : nullAlong (insertReV2 "user".data) "INSERT INTO users ".data = false := by
      decide
    have h2 : derivs (insertReV2 "user".data) "INSERT INTO users ".data = RE.emp := by
      rfl
    rw [h1, h2, emp_matchesPref]
    rfl
  · decide

/-- A row whose single field contains balanced literal parentheses. -/
def c5Row : List Char :=
  "(".data ++ [qc] ++ "(555) 123-4567".data ++ [qc] ++ ")".data

/-- C5 counterexample: the extractors do not respect quote state — a quoted
    right parenthesis closes a tuple, so the row ( then quote then ) ... is cut
    at the quoted parenthesis into two matches instead of one. -/
theorem c5_counterexample :
    (RE.execAll valueSetReV1 ['(', qc, ')', ':', '(', qc, ')']).1
      = [([], ['(', qc, ')']), ([':'], ['(', qc, ')'])]
    ∧ ['(', qc, ')'] ≠ ['(', qc, ')', ':', '(', qc, ')'] := by
  refine ⟨by decide, by decide⟩

/-- C5 amended: both value-set regexes handle one level of nested parentheses,
    so the phone-number row is still extracted as exactly one tuple spanning
    the whole parenthesized row; quote state is simply never consulted. -/
theorem c5_amended :
    RE.execAll valueSetReV1 c5Row = ([([], c5Row)], [])
    ∧ RE.execAll valueSetReV2 c5Row = ([([], c5Row)], []) := by
  refine ⟨by decide, by decide⟩

/-- C1 counterexample: the chunk-driver loop replaces a bare numeric literal 42
    at a targeted in-bounds index. -/
theorem c1_counterexample :
    (anonymizeV2 exGen [0] 0 [['4', '2']] false).1 = [[qc, 'x', qc]]
    ∧ ([qc, 'x', qc] : List Char) ≠ ['4', '2'] := by
  refine ⟨by decide, by decide⟩

/-- C1 amended: in the line-driver variant a targeted in-bounds field is
    replaced exactly when its text starts with a single quote or equals NULL
    case-insensitively, and is left unchanged otherwise; in the chunk-driver
    variant every targeted in-bounds field is replaced unconditionally. -/
theorem c1_amended (gen : Nat → List Char) (idx : List Nat) (k : Nat)
    (vs : List (List Char)) (i : Nat) (hmem : i ∈ idx) (hlen : i < vs.length) :
    (anonymizableV1 (vs.getD i []) = false →
      (anonymizeV1 gen idx k vs false).1.getD i [] = vs.getD i [])
    ∧ (anonymizableV1 (vs.getD i []) = true →
      ∃ k2, (anonymizeV1 gen idx k vs false).1.getD i [] = gen k2)
    ∧ (∃ k2, (anonymizeV2 gen idx k vs false).1.getD i [] = gen k2) :=
  ⟨fun h => anonymizeV1_keep gen idx k vs false i h,
   fun h => anonymizeV1_repl gen idx k vs false i hmem hlen h,
   anonymizeV2_repl gen idx k vs false i hmem hlen⟩

/-- C1 witness: a bare NULL field at targeted index 0. -/
theorem c1_amended_witness :
    (anonymizableV1 (["NULL".data].getD 0 []) = false →
      (anonymizeV1 exGen [0] 0 ["NULL".data] false).1.getD 0 []
        = ["NULL".data].getD 0 [])
    ∧ (anonymizableV1 (["NULL".data].getD 0 []) = true →
      ∃ k2, (anonymizeV1 exGen [0] 0 ["NULL".data] false).1.getD 0 [] = exGen k2)
    ∧ (∃ k2, (anonymizeV2 exGen [0] 0 ["NULL".data] false).1.getD 0 [] = exGen k2) :=
  c1_amended exGen [0] 0 ["NULL".data] 0 (by decide) (by decide)

/-- The quoted literal O''Brien. -/
def c3Lit : List Char := qc :: ("O".data ++ (qc :: qc :: ("Brien".data ++ [qc])))

/-- A statement carrying the escaped-quote literal in an untargeted field. -/
def c3Stmt : List Char :=
  "INSERT INTO t VALUES (".data ++ c3Lit ++ ", ".data ++ [qc, 'x', qc]
    ++ ", ".data ++ [qc, 'y', qc] ++ ");".data

/-- The reconstruction of c3Stmt when only index 2 is targeted: the
    escaped-quote literal comes through untouched. -/
def c3Out : List Char :=
  "INSERT INTO t VALUES ( ".data ++ c3Lit ++ ", ".data ++ [qc, 'x', qc]
    ++ ", ".data ++ [qc, 'x', qc] ++ " );".data

/-- C3: an escaped quote (two consecutive quotes inside a quoted string) is
    consumed as one unit of the same field — the scanner appends both quote
    characters and advances two — so a quoted literal containing one escaped
    pair tokenizes as a single field with the doubled quote preserved, and an
    untargeted such field reconstructs identically in the full pipeline. -/
theorem c3_escaped_quote (a b : List Char) (ha : ∀ c ∈ a, (c == qc) = false)
    (hb : ∀ c ∈ b, (c == qc) = false) :
    parseValues (qc :: (a ++ (qc :: qc :: (b ++ [qc]))))
      = [qc :: (a ++ (qc :: qc :: (b ++ [qc])))]
    ∧ (∀ (vals : List (List Char)) (cur rest : List Char),
        pvAux (qc :: qc :: rest) vals cur true = pvAux rest vals (cur ++ [qc, qc]) true)
    ∧ processStatementV1 "t".data [2] exGen c3Stmt = c3Out := by
  refine ⟨parseValues_escaped a b ha hb, ?_, by decide⟩
  intro vals cur rest
  rw [pvAux_cons_step]
  simp

/-- C3 witness at the O''Brien literal. -/
theorem c3_escaped_quote_witness :
    parseValues (qc :: ("O".data ++ (qc :: qc :: ("Brien".data ++ [qc]))))
      = [qc :: ("O".data ++ (qc :: qc :: ("Brien".data ++ [qc])))] :=
  (c3_escaped_quote "O".data "Brien".data (by decide) (by decide)).1

theorem processValueSetsV1_append (idx : List Nat) (gen : Nat → List Char) :
    ∀ (l1 l2 : List (List Char)) (k0 : Nat),
      processValueSetsV1 idx gen k0 (l1 ++ l2)
        = ((processValueSetsV1 idx gen k0 l1).1
             ++ (processValueSetsV1 idx gen
                  (processValueSetsV1 idx gen k0 l1).2.2.1 l2).1,
           (processValueSetsV1 idx gen k0 l1).2.1
             || (processValueSetsV1 idx gen
                  (processValueSetsV1 idx gen k0 l1).2.2.1 l2).2.1,
           (processValueSetsV1 idx gen
              (processValueSetsV1 idx gen k0 l1).2.2.1 l2).2.2.1,
           (processValueSetsV1 idx gen k0 l1).2.2.2
             + (processValueSetsV1 idx gen
                  (processValueSetsV1 idx gen k0 l1).2.2.1 l2).2.2.2) := by
  intro l1
  induction l1 with
  | nil => intro l2 k0; simp [processValueSetsV1]
  | cons fm1 rest ih =>
    intro l2 k0
    simp [processValueSetsV1, ih, Bool.or_assoc, Nat.add_assoc]

/-- C6: a tuple with fewer fields than the highest requested index is kept
    verbatim with no field modified and a bounds warning recorded, in both
    variants, and the other tuples of the statement are still processed
    normally around it (the warning count goes up by exactly one for it). -/
theorem c6_bounds (idx : List Nat) (gen : Nat → List Char) (k k0 : Nat)
    (fm : List Char) (l1 l2 : List (List Char))
    (h1 : ((parseValues (trimWS (stripParens fm))).length : Int) ≤ maxIndexI idx)
    (h2 : ((parseValues (stripParens fm)).length : Int) ≤ maxIndexI idx) :
    processValueSetV1 idx gen k fm = (fm, false, k, true)
    ∧ processValueSetV2 idx gen k fm = (fm, false, k, true)
    ∧ (processValueSetsV1 idx gen k0 (l1 ++ fm :: l2)).1
        = (processValueSetsV1 idx gen k0 l1).1
          ++ fm :: (processValueSetsV1 idx gen
              (processValueSetsV1 idx gen k0 l1).2.2.1 l2).1
    ∧ (processValueSetsV1 idx gen k0 (l1 ++ fm :: l2)).2.2.2
        = (processValueSetsV1 idx gen k0 l1).2.2.2 + 1
          + (processValueSetsV1 idx gen
              (processValueSetsV1 idx gen k0 l1).2.2.1 l2).2.2.2 := by
  have hv1 : ∀ k2, processValueSetV1 idx gen k2 fm = (fm, false, k2, true) := by
    intro k2
    simp [processValueSetV1, h1]
  have hv2 : processValueSetV2 idx gen k fm = (fm, false, k, true) := by
    simp [processValueSetV2, h2]
  refine ⟨hv1 k, hv2, ?_, ?_⟩
  · rw [processValueSetsV1_append idx gen l1 (fm :: l2) k0]
    simp [processValueSetsV1, hv1]
  · rw [processValueSetsV1_append idx gen l1 (fm :: l2) k0]
    simp [processValueSetsV1, hv1]
    omega

/-- C6 witness: a two-field tuple with requested index 5. -/
theorem c6_bounds_witness :
    processValueSetV1 [5] exGen 0 "(1, 2)".data = ("(1, 2)".data, false, 0, true) :=
  (c6_bounds [5] exGen 0 0 "(1, 2)".data [] [] (by decide) (by decide)).1

/-- C9 counterexample: a modified tuple in the line-driver variant is emitted
    with a space after the opening parenthesis and before the closing one, not
    as the bare parenthesized join the claim states. -/
theorem c9_counterexample :
    (processValueSetV1 [0] exGen 0 ['(', qc, 'a', qc, ')']).1
      = '(' :: ' ' :: qc :: 'x' :: qc :: [' ', ')']
    ∧ ('(' :: ' ' :: qc :: 'x' :: qc :: [' ', ')'])
        ≠ ('(' :: List.intercalate [',', ' '] [[qc, 'x', qc]]) ++ [')'] := by
  refine ⟨by decide, by decide⟩

/-- C9 amended: when at least one field of a tuple was replaced, the
    line-driver variant emits open-paren, a space, the fields joined by comma
    space, a space, close-paren; the chunk-driver variant emits exactly
    open-paren, the join, close-paren; when no field was replaced, both emit
    the original matched tuple text byte-identically. -/
theorem c9_amended (idx : List Nat) (gen : Nat → List Char) (k : Nat)
    (fm : List Char)
    (h1 : ¬ ((parseValues (trimWS (stripParens fm))).length : Int) ≤ maxIndexI idx)
    (h2 : ¬ ((parseValues (stripParens fm)).length : Int) ≤ maxIndexI idx) :
    ((anonymizeV1 gen idx k (parseValues (trimWS (stripParens fm))) false).2.1 = true →
      (processValueSetV1 idx gen k fm).1
        = ('(' :: ' ' :: List.intercalate [',', ' ']
            (anonymizeV1 gen idx k (parseValues (trimWS (stripParens fm))) false).1)
          ++ [' ', ')'])
    ∧ ((anonymizeV1 gen idx k (parseValues (trimWS (stripParens fm))) false).2.1 = false →
      (processValueSetV1 idx gen k fm).1 = fm)
    ∧ ((anonymizeV2 gen idx k (parseValues (stripParens fm)) false).2.1 = true →
      (processValueSetV2 idx gen k fm).1
        = ('(' :: List.intercalate [',', ' ']
            (anonymizeV2 gen idx k (parseValues (stripParens fm)) false).1) ++ [')'])
    ∧ ((anonymizeV2 gen idx k (parseValues (stripParens fm)) false).2.1 = false →
      (processValueSetV2 idx gen k fm).1 = fm) := by
  refine ⟨fun hm => ?_, fun hm => ?_, fun hm => ?_, fun hm => ?_⟩ <;>
    simp [processValueSetV1, processValueSetV2, h1, h2, hm]

/-- C9 witness: a one-field quoted tuple with index 0 targeted. -/
theorem c9_amended_witness :
    (processValueSetV1 [0] exGen 0 ['(', qc, 'a', qc, ')']).1
      = ('(' :: ' ' :: List.intercalate [',', ' ']
          (anonymizeV1 exGen [0] 0
            (parseValues (trimWS (stripParens ['(', qc, 'a', qc, ')']))) false).1)
        ++ [' ', ')'] :=
  (c9_amended [0] exGen 0 ['(', qc, 'a', qc, ')'] (by decide) (by decide)).1 (by decide)

/-- C2 counterexample: the chunk-driver variant writes a passthrough statement
    with one extra newline, so the text written is not byte-identical. -/
theorem c2_counterexample :
    processStatementV2 "t".data [0] exGen "SELECT 1;".data
      = "SELECT 1;".data ++ [nlc]
    ∧ "SELECT 1;".data ++ [nlc] ≠ "SELECT 1;".data := by
  refine ⟨by decide, by decide⟩

/-- C2 amended: when no value set is modified (non-target statement, missing
    VALUES keyword, or all tuples unmodified), the line-driver variant writes
    the statement byte-identically, while the chunk-driver variant writes the
    statement followed by one extra newline. -/
theorem c2_amended (tbl : List Char) (idx : List Nat) (gen : Nat → List Char)
    (stmt : List Char)
    (h1 : overallModifiedV1 tbl idx gen stmt = false)
    (h2 : overallModifiedV2 tbl idx gen stmt = false) :
    processStatementV1 tbl idx gen stmt = stmt
    ∧ processStatementV2 tbl idx gen stmt = stmt ++ [nlc] := by
  constructor
  · unfold processStatementV1
    unfold overallModifiedV1 at h1
    by_cases hm : RE.matchesSub (insertReV1 tbl) stmt = true
    · simp only [hm, if_true] at h1 ⊢
      cases hs : RE.searchIdx valuesKwRe stmt with
      | none => simp [hs]
      | some v =>
        rw [hs] at h1
        have h1x : (processValueSetsV1 idx gen 0
            (List.map (fun p => p.2) (RE.execAll valueSetReV1 (stmt.drop v)).1)).2.1
              = false := h1
        simp only [hs]
        simp [h1x]
    · simp only [Bool.not_eq_true] at hm
      simp [hm] at h1 ⊢
  · unfold processStatementV2
    unfold overallModifiedV2 at h2
    by_cases hm : RE.matchesPref (insertReV2 tbl) stmt = true
    · simp only [hm, if_true] at h2 ⊢
      cases hs : indexOfSub "VALUES".data (stmt.map Char.toUpper) with
      | none => simp [hs]
      | some p =>
        rw [hs] at h2
        have h2x : (processValueSetsV2 idx gen 0
            (List.map (fun q => q.2) (RE.execAll valueSetReV2 (stmt.drop (p + 6))).1)).2.1
              = false := h2
        simp only [hs]
        simp [h2x]
    · simp only [Bool.not_eq_true] at hm
      simp [hm] at h2 ⊢

/-- C2 witness: a non-target statement under both variants. -/
theorem c2_amended_witness :
    processStatementV1 "t".data [0] exGen "SELECT 1;".data = "SELECT 1;".data
    ∧ processStatementV2 "t".data [0] exGen "SELECT 1;".data
        = "SELECT 1;".data ++ [nlc] :=
  c2_amended "t".data [0] exGen "SELECT 1;".data (by decide) (by decide)

end SqlAnon
